import Mathlib

/-!
Verification of the `maxlloc` page-granular memory allocator (`src/maxlloc.h`).

The allocator maps a fresh OS region for every request and unmaps it on
release.  We shallowly embed the C code:

* `size_t` arithmetic is `Nat` taken modulo `W = 2 ^ 64` exactly where the C
  code can wrap (the additions inside `_maxlloc_round_up_to_page_size` and the
  `count * size` multiplication in `calloc`);
* `sizeof(MaxllocHeader)` is 8: the header is a union of a `uintptr_t` and a
  `size_t`, both 8 bytes on the LP64 model the code targets;
* the OS `mmap`/`munmap` capability is an explicit oracle: every operation
  takes the result the OS would give to its (at most one) `mmap` call — `none`
  for `MAP_FAILED` or `some base` for a fresh page-aligned region — and records
  the system calls it issued in a trace;
* memory is a `Heap`: a map from region base addresses to mapped `Block`s.
  A `Block` keeps the length handed to `mmap`, the `block_size` field the code
  stamped into the header, and the payload bytes (offsets measured from the
  end of the header).
-/

namespace Maxlloc

/-- `size_t` wraps modulo `2 ^ 64`. -/
def W : Nat := 2 ^ 64

/-- `sizeof(MaxllocHeader)`: a union of `uintptr_t` and `size_t`, 8 bytes. -/
def headerSize : Nat := 8

/--
`_maxlloc_round_up_to_page_size` from `src/maxlloc.h`:

    size_t page_size = getpagesize() - 1;
    size += sizeof(MaxllocHeader);
    size += page_size;
    size &= ~page_size;

`p` is the system page size (`getpagesize()`), a power of two.  The two
additions are `size_t` additions (mod `W`); `~page_size` is the 64-bit
complement of `p - 1`, i.e. `W - 1 - (p - 1)`.
-/
def roundUp (p s : Nat) : Nat :=
  let page_size := p - 1
  let s1 := (s + headerSize) % W
  let s2 := (s1 + page_size) % W
  s2 &&& (W - 1 - page_size)

/-- One mapped region: the length requested from `mmap`, the `block_size`
value stored in the `MaxllocHeader`, and the payload bytes (offset `o` is the
byte at address `base + headerSize + o`).  A fresh mapping is zero-filled. -/
structure Block where
  mappedLen : Nat
  blockSize : Nat
  payload : Nat → Nat

/-- The mapped memory: base address ↦ block, `none` where nothing is mapped. -/
def Heap : Type := Nat → Option Block

def Heap.empty : Heap := fun _ => none

def Heap.insert (h : Heap) (a : Nat) (b : Block) : Heap :=
  fun x => if x = a then some b else h x

def Heap.erase (h : Heap) (a : Nat) : Heap :=
  fun x => if x = a then none else h x

/-- `block_size` stored in the header of the block based at `a`, if mapped. -/
def Heap.sizeAt (h : Heap) (a : Nat) : Option Nat :=
  (h a).map Block.blockSize

/-- Length that was requested from `mmap` for the block based at `a`. -/
def Heap.mappedAt (h : Heap) (a : Nat) : Option Nat :=
  (h a).map Block.mappedLen

/-- Payload byte at offset `o` of the block based at `a`, if mapped. -/
def Heap.byteAt (h : Heap) (a o : Nat) : Option Nat :=
  (h a).map (fun b => b.payload o)

/-- A system call issued to the OS memory-mapping capability. -/
inductive OsCall where
  | mmapCall (len : Nat) (res : Option Nat)
  | munmapCall (addr len : Nat)
deriving DecidableEq

/-- Result of an allocating entry point: the new heap, the returned pointer
(`none` = `NULL`), and the OS calls issued, in order. -/
structure AllocResult where
  heap : Heap
  ret : Option Nat
  calls : List OsCall

/-- Result of `free`: the new heap and the OS calls issued. -/
structure FreeResult where
  heap : Heap
  calls : List OsCall

/--
`maxlloc` from `src/maxlloc.h`.  `mres` is the oracle for the single `mmap`
call: `none` models `MAP_FAILED`, `some base` a fresh zero-filled region.
On success the code stamps the rounded total into `header->block_size` and
returns `header + 1`, i.e. `base + headerSize`.
-/
def maxlloc (p : Nat) (h : Heap) (mres : Option Nat) (size : Nat) : AllocResult :=
  if size = 0 then
    ⟨h, none, []⟩
  else
    let ts := roundUp p size
    match mres with
    | none => ⟨h, none, [OsCall.mmapCall ts none]⟩
    | some base =>
        let blk : Block := ⟨ts, ts, fun _ => 0⟩
        ⟨h.insert base blk, some (base + headerSize), [OsCall.mmapCall ts (some base)]⟩

/--
`free` from `src/maxlloc.h`: a no-op on `NULL`; otherwise reads
`header->block_size` at `ptr - headerSize` and calls
`munmap(header, header->block_size)`.  Passing a pointer that is not a live
allocation is undefined behaviour in the C contract; the model makes that
branch a no-op (no block to read a header from).
-/
def free (h : Heap) (ptr : Option Nat) : FreeResult :=
  match ptr with
  | none => ⟨h, []⟩
  | some q =>
      let base := q - headerSize
      match h base with
      | none => ⟨h, []⟩
      | some b => ⟨h.erase base, [OsCall.munmapCall base b.blockSize]⟩

/--
`calloc` from `src/maxlloc.h`:

    size_t total_size = count * size;      // unchecked size_t multiply
    void *ptr = maxlloc(total_size);
    if (ptr) memset(ptr, 0, total_size);

The multiplication wraps modulo `W`; the `memset` zeroes the first
`total_size` payload bytes of the freshly returned block.
-/
def calloc (p : Nat) (h : Heap) (mres : Option Nat) (count size : Nat) : AllocResult :=
  let total := (count * size) % W
  let r := maxlloc p h mres total
  match r.ret with
  | none => ⟨r.heap, none, r.calls⟩
  | some q =>
      let base := q - headerSize
      match r.heap base with
      | none => ⟨r.heap, some q, r.calls⟩
      | some b =>
          let zeroed : Block :=
            ⟨b.mappedLen, b.blockSize, fun o => if o < total then 0 else b.payload o⟩
          ⟨r.heap.insert base zeroed, some q, r.calls⟩

/--
`realloc` from `src/maxlloc.h`.  `size == 0` frees and returns `NULL`;
`ptr == NULL` delegates to `maxlloc`; if the rounded new total fits in the
old block the old pointer is returned untouched; otherwise a new region is
mapped (oracle `mres`), `old_size - headerSize` payload bytes are copied,
the new total is stamped into the new header, and the old block is freed.
As in `free`, the branch where `ptr` is not a live allocation is undefined
behaviour in C and modelled as a failure without effect.
-/
def realloc (p : Nat) (h : Heap) (mres : Option Nat) (ptr : Option Nat)
    (size : Nat) : AllocResult :=
  if size = 0 then
    let r := free h ptr
    ⟨r.heap, none, r.calls⟩
  else
    match ptr with
    | none => maxlloc p h mres size
    | some q =>
        let base := q - headerSize
        match h base with
        | none => ⟨h, none, []⟩
        | some old =>
            let old_size := old.blockSize
            let new_size := roundUp p size
            if new_size ≤ old_size then
              ⟨h, some q, []⟩
            else
              match mres with
              | none => ⟨h, none, [OsCall.mmapCall new_size none]⟩
              | some nb =>
                  let newBlk : Block :=
                    ⟨new_size, new_size,
                      fun o => if o < old_size - headerSize then old.payload o else 0⟩
                  let h1 := h.insert nb newBlk
                  let r := free h1 (some q)
                  ⟨r.heap, some (nb + headerSize),
                    OsCall.mmapCall new_size (some nb) :: r.calls⟩

/-! ### Arithmetic of the size rounder -/

/-- Clearing the low `k` bits of a 64-bit value (`x &= ~(2^k - 1)`) rounds it
down to a multiple of `2 ^ k`. -/
theorem land_two_pow_mask (x k : Nat) (hx : x < 2 ^ 64) (hk : k ≤ 64) :
    x &&& (2 ^ 64 - 2 ^ k) = x / 2 ^ k * 2 ^ k := by
  have hmask : (2 : Nat) ^ 64 - 2 ^ k = (2 ^ (64 - k) - 1) <<< k := by
    rw [Nat.shiftLeft_eq, Nat.sub_mul, one_mul, ← pow_add, Nat.sub_add_cancel hk]
  have hdiv : x / 2 ^ k * 2 ^ k = (x >>> k) <<< k := by
    rw [Nat.shiftRight_eq_div_pow, Nat.shiftLeft_eq]
  rw [hmask, hdiv]
  apply Nat.eq_of_testBit_eq
  intro i
  rw [Nat.testBit_land, Nat.testBit_shiftLeft, Nat.testBit_shiftLeft,
    Nat.testBit_two_pow_sub_one, Nat.testBit_shiftRight]
  by_cases hki : k ≤ i
  · by_cases hi : i < 64
    · have h1 : i - k < 64 - k := by omega
      have h2 : k + (i - k) = i := by omega
      simp [ge_iff_le, hki, h1, h2]
    · have h2 : k + (i - k) = i := by omega
      have hxi : x.testBit i = false :=
        Nat.testBit_lt_two_pow
          (lt_of_lt_of_le hx (Nat.pow_le_pow_right (by omega) (by omega)))
      simp [ge_iff_le, hki, h2, hxi]
  · simp [ge_iff_le, hki]

/-- `(a + (P-1)) / P * P` is the least multiple of `P` that is `≥ a`. -/
theorem ceil_div_mul_spec (a P : Nat) (hP : 0 < P) :
    (a + (P - 1)) / P * P % P = 0 ∧
    a ≤ (a + (P - 1)) / P * P ∧
    ∀ m, m % P = 0 → a ≤ m → (a + (P - 1)) / P * P ≤ m := by
  have hdm := Nat.div_add_mod (a + (P - 1)) P
  have hr : (a + (P - 1)) % P < P := Nat.mod_lt _ hP
  refine ⟨Nat.mul_mod_left _ _, ?_, ?_⟩
  · have h1 : (a + (P - 1)) / P * P = P * ((a + (P - 1)) / P) :=
      Nat.mul_comm _ _
    omega
  · intro m hm ham
    obtain ⟨j, rfl⟩ := Nat.dvd_of_mod_eq_zero hm
    have h3 : (P * j + (P - 1)) / P = j := by
      rw [Nat.mul_add_div hP, Nat.div_eq_of_lt (by omega : P - 1 < P), Nat.add_zero]
    have h2 : (a + (P - 1)) / P ≤ j := by
      calc (a + (P - 1)) / P ≤ (P * j + (P - 1)) / P :=
            Nat.div_le_div_right (by omega)
        _ = j := h3
    calc (a + (P - 1)) / P * P ≤ j * P := Nat.mul_le_mul_right P h2
      _ = P * j := Nat.mul_comm j P

/-- The size rounder, for a power-of-two page size, computes the wrapped sum
`(s + headerSize + (page - 1)) mod 2^64` and rounds it down to a multiple of
the page. -/
theorem roundUp_eq (k s : Nat) (hk : k ≤ 64) :
    roundUp (2 ^ k) s =
      (((s + headerSize) % W + (2 ^ k - 1)) % W) / 2 ^ k * 2 ^ k := by
  have h2k : (1 : Nat) ≤ 2 ^ k := Nat.one_le_two_pow
  have hle : (2 : Nat) ^ k ≤ 2 ^ 64 := Nat.pow_le_pow_right (by omega) hk
  have hWpos : 0 < W := Nat.pos_pow_of_pos 64 (by omega)
  have hmask : W - 1 - (2 ^ k - 1) = 2 ^ 64 - 2 ^ k := by
    simp only [W]; omega
  have hx : ((s + headerSize) % W + (2 ^ k - 1)) % W < 2 ^ 64 :=
    Nat.mod_lt ((s + headerSize) % W + (2 ^ k - 1)) hWpos
  show (((s + headerSize) % W + (2 ^ k - 1)) % W) &&& (W - 1 - (2 ^ k - 1)) = _
  rw [hmask]
  exact land_two_pow_mask _ k hx hk

/-- Under no overflow, the size rounder yields the least page multiple that
covers the payload plus the header. -/
theorem roundUp_least (k s : Nat) (hk : k ≤ 64)
    (hno : s + headerSize + (2 ^ k - 1) < W) :
    roundUp (2 ^ k) s % 2 ^ k = 0 ∧
    s + headerSize ≤ roundUp (2 ^ k) s ∧
    ∀ m, m % 2 ^ k = 0 → s + headerSize ≤ m → roundUp (2 ^ k) s ≤ m := by
  have hp : (0 : Nat) < 2 ^ k := Nat.pos_pow_of_pos k (by omega)
  have hsW : s + headerSize < W := by omega
  have hmod1 : (s + headerSize) % W = s + headerSize := Nat.mod_eq_of_lt hsW
  rw [roundUp_eq k s hk, hmod1, Nat.mod_eq_of_lt hno]
  exact ceil_div_mul_spec (s + headerSize) (2 ^ k) hp

/-! ### Unfolding equations for the four entry points -/

theorem free_none_eq (h : Heap) : free h none = ⟨h, []⟩ := rfl

theorem free_some_eq (h : Heap) (q : Nat) (b : Block)
    (hb : h (q - headerSize) = some b) :
    free h (some q) =
      ⟨h.erase (q - headerSize), [OsCall.munmapCall (q - headerSize) b.blockSize]⟩ := by
  unfold free
  dsimp only
  rw [hb]

theorem free_dangling_eq (h : Heap) (q : Nat)
    (hb : h (q - headerSize) = none) :
    free h (some q) = ⟨h, []⟩ := by
  unfold free
  dsimp only
  rw [hb]

theorem maxlloc_zero_eq (p : Nat) (h : Heap) (mres : Option Nat) :
    maxlloc p h mres 0 = ⟨h, none, []⟩ := rfl

theorem maxlloc_fail_eq (p : Nat) (h : Heap) (s : Nat) (hs : s ≠ 0) :
    maxlloc p h none s = ⟨h, none, [OsCall.mmapCall (roundUp p s) none]⟩ := by
  unfold maxlloc
  rw [if_neg hs]

theorem maxlloc_some_eq (p : Nat) (h : Heap) (base s : Nat) (hs : s ≠ 0) :
    maxlloc p h (some base) s =
      ⟨h.insert base ⟨roundUp p s, roundUp p s, fun _ => 0⟩,
        some (base + headerSize), [OsCall.mmapCall (roundUp p s) (some base)]⟩ := by
  unfold maxlloc
  rw [if_neg hs]

theorem realloc_zero_eq (p : Nat) (h : Heap) (mres ptr : Option Nat) :
    realloc p h mres ptr 0 = ⟨(free h ptr).heap, none, (free h ptr).calls⟩ := rfl

theorem realloc_null_eq (p : Nat) (h : Heap) (mres : Option Nat) (s : Nat)
    (hs : s ≠ 0) :
    realloc p h mres none s = maxlloc p h mres s := by
  unfold realloc
  rw [if_neg hs]

theorem realloc_dangling_eq (p : Nat) (h : Heap) (mres : Option Nat) (q s : Nat)
    (hs : s ≠ 0) (hnull : h (q - headerSize) = none) :
    realloc p h mres (some q) s = ⟨h, none, []⟩ := by
  unfold realloc
  rw [if_neg hs]
  dsimp only
  rw [hnull]

theorem realloc_fit_eq (p : Nat) (h : Heap) (mres : Option Nat) (q s : Nat)
    (old : Block) (hs : s ≠ 0) (hold : h (q - headerSize) = some old)
    (hfit : roundUp p s ≤ old.blockSize) :
    realloc p h mres (some q) s = ⟨h, some q, []⟩ := by
  unfold realloc
  rw [if_neg hs]
  dsimp only
  rw [hold]
  dsimp only
  rw [if_pos hfit]

theorem realloc_grow_fail_eq (p : Nat) (h : Heap) (q s : Nat) (old : Block)
    (hs : s ≠ 0) (hold : h (q - headerSize) = some old)
    (hgrow : ¬ roundUp p s ≤ old.blockSize) :
    realloc p h none (some q) s = ⟨h, none, [OsCall.mmapCall (roundUp p s) none]⟩ := by
  unfold realloc
  rw [if_neg hs]
  dsimp only
  rw [hold]
  dsimp only
  rw [if_neg hgrow]

theorem realloc_grow_some_eq (p : Nat) (h : Heap) (q s nb : Nat) (old : Block)
    (hs : s ≠ 0) (hold : h (q - headerSize) = some old)
    (hgrow : ¬ roundUp p s ≤ old.blockSize) (hne : nb ≠ q - headerSize) :
    realloc p h (some nb) (some q) s =
      ⟨(h.insert nb
          ⟨roundUp p s, roundUp p s,
            fun o => if o < old.blockSize - headerSize then old.payload o else 0⟩).erase
          (q - headerSize),
        some (nb + headerSize),
        [OsCall.mmapCall (roundUp p s) (some nb),
          OsCall.munmapCall (q - headerSize) old.blockSize]⟩ := by
  unfold realloc
  rw [if_neg hs]
  dsimp only
  rw [hold]
  dsimp only
  rw [if_neg hgrow]
  have h1look :
      (h.insert nb
        ⟨roundUp p s, roundUp p s,
          fun o => if o < old.blockSize - headerSize then old.payload o else 0⟩)
        (q - headerSize) = some old := by
    unfold Heap.insert
    rw [if_neg (fun e => hne e.symm), hold]
  rw [free_some_eq _ _ _ h1look]

/-! ### Concrete fixtures used by witnesses -/

/-- A one-page block as `maxlloc` creates it with a 4096-byte page. -/
def sampleBlock : Block := ⟨4096, 4096, fun _ => 0⟩

/-- A heap holding `sampleBlock` at base address 0 (payload pointer 8). -/
def sampleHeap : Heap := Heap.empty.insert 0 sampleBlock

/-! ### Claims -/

/-- C1, counterexample: two of the claim's parts fail on the code.  (i) The
claimed example `Allocate(4090)` reserving 4096 bytes is wrong: with a
4096-byte page, `4090 + 8 = 4098 > 4096`, so the rounder returns 8192 and
`maxlloc` maps 8192 bytes.  (ii) The universal statement fails for
pathological sizes: at `s = 2^64 - 8` the `size_t` addition `s + 8` wraps to
0 and the rounder returns 0, which is smaller than `s + headerSize`. -/
theorem c1_round_up_counterexample :
    (roundUp 4096 4090 = 8192 ∧
      Heap.mappedAt (maxlloc 4096 Heap.empty (some 0) 4090).heap 0 = some 8192 ∧
      roundUp 4096 4090 ≠ 4096) ∧
    (roundUp 4096 (2 ^ 64 - 8) = 0 ∧
      ¬ (2 ^ 64 - 8 + headerSize ≤ roundUp 4096 (2 ^ 64 - 8))) := by
  exact ⟨⟨by decide, by decide, by decide⟩, by decide, by decide⟩

/-- C1 (amended): for every power-of-two page size `2^k` and every size `s`
for which the rounder's `size_t` arithmetic does not wrap
(`s + headerSize + (2^k - 1) < 2^64`), `_maxlloc_round_up_to_page_size`
returns the smallest multiple of the page size that is `≥ s + headerSize`;
with a 4096-byte page and 8-byte header, `maxlloc 1` and `maxlloc 4088` map
4096 bytes while `maxlloc 4089` and `maxlloc 4090` map 8192 bytes. -/
theorem c1_round_up_least_page_multiple (k s : Nat) (hk : k ≤ 64)
    (hno : s + headerSize + (2 ^ k - 1) < W) :
    (roundUp (2 ^ k) s % 2 ^ k = 0 ∧
      s + headerSize ≤ roundUp (2 ^ k) s ∧
      ∀ m, m % 2 ^ k = 0 → s + headerSize ≤ m → roundUp (2 ^ k) s ≤ m) ∧
    Heap.mappedAt (maxlloc 4096 Heap.empty (some 0) 1).heap 0 = some 4096 ∧
    Heap.mappedAt (maxlloc 4096 Heap.empty (some 0) 4088).heap 0 = some 4096 ∧
    Heap.mappedAt (maxlloc 4096 Heap.empty (some 0) 4089).heap 0 = some 8192 ∧
    Heap.mappedAt (maxlloc 4096 Heap.empty (some 0) 4090).heap 0 = some 8192 := by
  exact ⟨roundUp_least k s hk hno, by decide, by decide, by decide, by decide⟩

/-- C1 witness: instance of the amended claim at `k = 12`, `s = 1`. -/
theorem c1_round_up_least_page_multiple_witness :
    (12 ≤ 64 ∧ 1 + headerSize + (2 ^ 12 - 1) < W) ∧
    roundUp (2 ^ 12) 1 % 2 ^ 12 = 0 ∧ 1 + headerSize ≤ roundUp (2 ^ 12) 1 :=
  ⟨⟨by decide, by decide⟩,
    (c1_round_up_least_page_multiple 12 1 (by decide) (by decide)).1.1,
    (c1_round_up_least_page_multiple 12 1 (by decide) (by decide)).1.2.1⟩

/-- C7: `maxlloc` returns `NULL` exactly when the requested size is 0 or the
OS denies the mapping; in every other case it returns the payload pointer
`base + headerSize`.  In the `NULL` cases the heap is untouched (no partial
state), and the zero-size case performs no OS call at all. -/
theorem c7_maxlloc_null_iff (p : Nat) (h : Heap) (mres : Option Nat) (s : Nat) :
    ((maxlloc p h mres s).ret = none ↔ s = 0 ∨ mres = none) ∧
    (s = 0 → (maxlloc p h mres s).heap = h ∧ (maxlloc p h mres s).calls = []) ∧
    (mres = none → (maxlloc p h mres s).heap = h) ∧
    (∀ base, mres = some base → s ≠ 0 →
      (maxlloc p h mres s).ret = some (base + headerSize)) := by
  by_cases hs : s = 0
  · subst hs
    rw [maxlloc_zero_eq]
    refine ⟨by simp, fun _ => ⟨rfl, rfl⟩, fun _ => rfl, fun base hb h0 => absurd rfl h0⟩
  · cases mres with
    | none =>
        rw [maxlloc_fail_eq p h s hs]
        refine ⟨by simp, fun h0 => absurd h0 hs, fun _ => rfl, ?_⟩
        intro base hb
        cases hb
    | some base =>
        rw [maxlloc_some_eq p h base s hs]
        refine ⟨by simp [hs], fun h0 => absurd h0 hs, fun hb => Option.noConfusion hb, ?_⟩
        intro base' hb _
        injection hb with hb'
        subst hb'
        rfl

/-- C7 witness: instances at size 0, at a denied mapping, and at a granted
mapping. -/
theorem c7_maxlloc_null_iff_witness :
    (maxlloc 4096 Heap.empty (some 0) 0).ret = none ∧
    (maxlloc 4096 Heap.empty none 5).ret = none ∧
    (maxlloc 4096 Heap.empty none 5).heap = Heap.empty ∧
    (maxlloc 4096 Heap.empty (some 0) 5).ret = some (0 + headerSize) :=
  ⟨(c7_maxlloc_null_iff 4096 Heap.empty (some 0) 0).1.2 (Or.inl rfl),
    (c7_maxlloc_null_iff 4096 Heap.empty none 5).1.2 (Or.inr rfl),
    (c7_maxlloc_null_iff 4096 Heap.empty none 5).2.2.1 rfl,
    (c7_maxlloc_null_iff 4096 Heap.empty (some 0) 5).2.2.2 0 rfl (by decide)⟩

/-- C8: `free NULL` is a total no-op (heap unchanged, no OS call, no error);
for a live pointer `q`, `free` reads `block_size` from the header at
`q - headerSize` and issues exactly one `munmap` of that many bytes at the
header address, unmapping the block. -/
theorem c8_free_null_noop_and_unmap (h : Heap) (q : Nat) (b : Block)
    (hb : h (q - headerSize) = some b) :
    ((free h none).heap = h ∧ (free h none).calls = []) ∧
    (free h (some q)).calls = [OsCall.munmapCall (q - headerSize) b.blockSize] ∧
    (free h (some q)).heap (q - headerSize) = none ∧
    (∀ a, a ≠ q - headerSize → (free h (some q)).heap a = h a) := by
  rw [free_none_eq, free_some_eq h q b hb]
  refine ⟨⟨rfl, rfl⟩, rfl, ?_, ?_⟩
  · simp [Heap.erase]
  · intro a ha
    simp [Heap.erase, ha]

/-- C8 witness: instance on `sampleHeap` with the live pointer 8. -/
theorem c8_free_null_noop_and_unmap_witness :
    sampleHeap (8 - headerSize) = some sampleBlock ∧
    (free sampleHeap none).calls = [] ∧
    (free sampleHeap (some 8)).calls = [OsCall.munmapCall (8 - headerSize) sampleBlock.blockSize] :=
  ⟨rfl,
    (c8_free_null_noop_and_unmap sampleHeap 8 sampleBlock rfl).1.2,
    (c8_free_null_noop_and_unmap sampleHeap 8 sampleBlock rfl).2.1⟩

/-- C9: for every pointer (null or live), `realloc p 0` has exactly the
effect of `free p` — same resulting heap and same OS calls — and returns
`NULL`. -/
theorem c9_realloc_zero_equiv_free (p : Nat) (h : Heap) (mres : Option Nat)
    (ptr : Option Nat) :
    (realloc p h mres ptr 0).heap = (free h ptr).heap ∧
    (realloc p h mres ptr 0).calls = (free h ptr).calls ∧
    (realloc p h mres ptr 0).ret = none :=
  ⟨rfl, rfl, rfl⟩

/-- C2: when the rounded new total exceeds the old block's stored total and
the OS denies the new mapping, `realloc` returns `NULL`, the heap is exactly
as before — the old block is still mapped with its header, stored size and
every payload byte unchanged — and the only OS call made is the failed
`mmap`; in particular no `munmap` occurs. -/
theorem c2_realloc_failure_preserves_old (p : Nat) (h : Heap) (q s : Nat)
    (old : Block) (hs : s ≠ 0) (hold : h (q - headerSize) = some old)
    (hgrow : old.blockSize < roundUp p s) :
    (realloc p h none (some q) s).ret = none ∧
    (realloc p h none (some q) s).heap = h ∧
    (realloc p h none (some q) s).calls = [OsCall.mmapCall (roundUp p s) none] ∧
    (realloc p h none (some q) s).heap (q - headerSize) = some old ∧
    ∀ o, Heap.byteAt (realloc p h none (some q) s).heap (q - headerSize) o =
      some (old.payload o) := by
  rw [realloc_grow_fail_eq p h q s old hs hold (by omega)]
  exact ⟨rfl, rfl, rfl, hold, fun o => by simp [Heap.byteAt, hold]⟩

/-- C2 witness: instance on `sampleHeap` (one 4096-byte block, pointer 8),
growing to 5000 bytes with the OS denying the mapping. -/
theorem c2_realloc_failure_preserves_old_witness :
    (5000 ≠ 0 ∧ sampleHeap (8 - headerSize) = some sampleBlock ∧
      sampleBlock.blockSize < roundUp 4096 5000) ∧
    (realloc 4096 sampleHeap none (some 8) 5000).ret = none ∧
    (realloc 4096 sampleHeap none (some 8) 5000).heap (8 - headerSize) =
      some sampleBlock :=
  ⟨⟨by decide, rfl, by decide⟩,
    (c2_realloc_failure_preserves_old 4096 sampleHeap 8 5000 sampleBlock
      (by decide) rfl (by decide)).1,
    (c2_realloc_failure_preserves_old 4096 sampleHeap 8 5000 sampleBlock
      (by decide) rfl (by decide)).2.2.2.1⟩

/-- C4: when the rounded new total fits in the old block's stored total (and
`new_size > 0`), `realloc` returns exactly the same pointer, makes no OS call
at all (no mapping, no unmapping), leaves the heap identical, and every
payload byte of the block is unchanged. -/
theorem c4_realloc_fit_returns_same_pointer (p : Nat) (h : Heap)
    (mres : Option Nat) (q s : Nat) (old : Block) (hs : s ≠ 0)
    (hold : h (q - headerSize) = some old)
    (hfit : roundUp p s ≤ old.blockSize) :
    (realloc p h mres (some q) s).ret = some q ∧
    (realloc p h mres (some q) s).heap = h ∧
    (realloc p h mres (some q) s).calls = [] ∧
    ∀ o, Heap.byteAt (realloc p h mres (some q) s).heap (q - headerSize) o =
      some (old.payload o) := by
  rw [realloc_fit_eq p h mres q s old hs hold hfit]
  exact ⟨rfl, rfl, rfl, fun o => by simp [Heap.byteAt, hold]⟩

/-- C4 witness: instance on `sampleHeap`, resizing the 4096-byte block to a
payload of 100 bytes, which still fits. -/
theorem c4_realloc_fit_returns_same_pointer_witness :
    (100 ≠ 0 ∧ sampleHeap (8 - headerSize) = some sampleBlock ∧
      roundUp 4096 100 ≤ sampleBlock.blockSize) ∧
    (realloc 4096 sampleHeap (some 262144) (some 8) 100).ret = some 8 ∧
    (realloc 4096 sampleHeap (some 262144) (some 8) 100).calls = [] :=
  ⟨⟨by decide, rfl, by decide⟩,
    (c4_realloc_fit_returns_same_pointer 4096 sampleHeap (some 262144) 8 100
      sampleBlock (by decide) rfl (by decide)).1,
    (c4_realloc_fit_returns_same_pointer 4096 sampleHeap (some 262144) 8 100
      sampleBlock (by decide) rfl (by decide)).2.2.1⟩

/-- C5: when the rounded new total exceeds the old stored total and the OS
grants a fresh region, `realloc` returns a new pointer different from the old
one, copies exactly `old_total_size - headerSize` bytes of payload from the
old block into the new one, stamps the rounded new total into the new header,
and unmaps the old block (`mmap` then `munmap` of the old total). -/
theorem c5_realloc_grow_copies_and_frees (p : Nat) (h : Heap) (q s nb : Nat)
    (old : Block) (hs : s ≠ 0) (hold : h (q - headerSize) = some old)
    (hgrow : old.blockSize < roundUp p s) (hfresh : h nb = none) :
    (realloc p h (some nb) (some q) s).ret = some (nb + headerSize) ∧
    nb + headerSize ≠ q ∧
    (∀ o, o < old.blockSize - headerSize →
      Heap.byteAt (realloc p h (some nb) (some q) s).heap nb o =
        some (old.payload o)) ∧
    Heap.sizeAt (realloc p h (some nb) (some q) s).heap nb =
      some (roundUp p s) ∧
    (realloc p h (some nb) (some q) s).heap (q - headerSize) = none ∧
    (realloc p h (some nb) (some q) s).calls =
      [OsCall.mmapCall (roundUp p s) (some nb),
        OsCall.munmapCall (q - headerSize) old.blockSize] := by
  have hne : nb ≠ q - headerSize := fun e => by rw [e, hold] at hfresh; cases hfresh
  rw [realloc_grow_some_eq p h q s nb old hs hold (by omega) hne]
  refine ⟨rfl, fun e => hne (by omega), ?_, ?_, ?_, rfl⟩
  · intro o ho
    simp [Heap.byteAt, Heap.erase, Heap.insert, hne, ho]
  · simp [Heap.sizeAt, Heap.erase, Heap.insert, hne]
  · simp [Heap.erase]

/-- C5 witness: instance on `sampleHeap`, growing the 4096-byte block at
pointer 8 to 5000 payload bytes with a fresh region granted at 262144. -/
theorem c5_realloc_grow_copies_and_frees_witness :
    (5000 ≠ 0 ∧ sampleHeap (8 - headerSize) = some sampleBlock ∧
      sampleBlock.blockSize < roundUp 4096 5000 ∧ sampleHeap 262144 = none) ∧
    (realloc 4096 sampleHeap (some 262144) (some 8) 5000).ret =
      some (262144 + headerSize) ∧
    Heap.byteAt (realloc 4096 sampleHeap (some 262144) (some 8) 5000).heap
      262144 0 = some (sampleBlock.payload 0) :=
  ⟨⟨by decide, rfl, by decide, rfl⟩,
    (c5_realloc_grow_copies_and_frees 4096 sampleHeap 8 5000 262144 sampleBlock
      (by decide) rfl (by decide) rfl).1,
    (c5_realloc_grow_copies_and_frees 4096 sampleHeap 8 5000 262144 sampleBlock
      (by decide) rfl (by decide) rfl).2.2.1 0 (by decide)⟩

/-- C3: `calloc` multiplies `count * size` as an unchecked `size_t`
multiplication.  At `count = 2^32`, `size = 2^32 + 1` the true product
exceeds the maximum `size_t`, the wrapped product is the small nonzero value
`2^32`, `calloc` succeeds, and the mapped block covers `2^32 + 4096` bytes —
fewer than the true product: a silently too-small allocation. -/
theorem c3_calloc_multiplication_wraps :
    2 ^ 64 - 1 < 2 ^ 32 * (2 ^ 32 + 1) ∧
    (2 ^ 32 * (2 ^ 32 + 1)) % W = 2 ^ 32 ∧
    0 < 2 ^ 32 ∧ (2 : Nat) ^ 32 < 2 ^ 32 * (2 ^ 32 + 1) ∧
    (calloc 4096 Heap.empty (some 0) (2 ^ 32) (2 ^ 32 + 1)).ret = some headerSize ∧
    Heap.mappedAt (calloc 4096 Heap.empty (some 0) (2 ^ 32) (2 ^ 32 + 1)).heap 0 =
      some (2 ^ 32 + 4096) ∧
    2 ^ 32 + 4096 < 2 ^ 32 * (2 ^ 32 + 1) := by
  exact ⟨by decide, by decide, by decide, by decide, by decide, by decide, by decide⟩

/-- C6: for a non-overflowing pair with positive product, `calloc` propagates
a mapping failure as `NULL` with the heap untouched, and on success returns
the payload pointer of a block whose every payload byte is zero. -/
theorem c6_calloc_zero_fill (p : Nat) (h : Heap) (count size : Nat)
    (hpos : 0 < count * size) (hnof : count * size < W) :
    ((calloc p h none count size).ret = none ∧
      (calloc p h none count size).heap = h) ∧
    ∀ base, (calloc p h (some base) count size).ret = some (base + headerSize) ∧
      ∀ o, Heap.byteAt (calloc p h (some base) count size).heap base o = some 0 := by
  have hne : count * size ≠ 0 := by omega
  have htot : count * size % W = count * size := Nat.mod_eq_of_lt hnof
  constructor
  · unfold calloc
    dsimp only
    rw [htot, maxlloc_fail_eq p h _ hne]
    exact ⟨rfl, rfl⟩
  · intro base
    unfold calloc
    dsimp only
    rw [htot, maxlloc_some_eq p h base _ hne]
    dsimp only
    rw [Nat.add_sub_cancel]
    have hlook :
        (h.insert base ⟨roundUp p (count * size), roundUp p (count * size), fun _ => 0⟩)
          base =
        some ⟨roundUp p (count * size), roundUp p (count * size), fun _ => 0⟩ := by
      unfold Heap.insert
      rw [if_pos rfl]
    rw [hlook]
    dsimp only
    refine ⟨rfl, fun o => ?_⟩
    simp [Heap.byteAt, Heap.insert]

/-- C6 witness: `calloc` of 10 four-byte elements: failure propagation, then
success at base 0 with payload byte 39 equal to zero. -/
theorem c6_calloc_zero_fill_witness :
    (0 < 10 * 4 ∧ 10 * 4 < W) ∧
    (calloc 4096 Heap.empty none 10 4).ret = none ∧
    (calloc 4096 Heap.empty (some 0) 10 4).ret = some (0 + headerSize) ∧
    Heap.byteAt (calloc 4096 Heap.empty (some 0) 10 4).heap 0 39 = some 0 :=
  ⟨⟨by decide, by decide⟩,
    (c6_calloc_zero_fill 4096 Heap.empty 10 4 (by decide) (by decide)).1.1,
    ((c6_calloc_zero_fill 4096 Heap.empty 10 4 (by decide) (by decide)).2 0).1,
    ((c6_calloc_zero_fill 4096 Heap.empty 10 4 (by decide) (by decide)).2 0).2 39⟩

/-! ### Return-value case analyses, used for the alignment invariant -/

theorem add_header_mod (p b : Nat) (hb : p ∣ b) :
    (b + headerSize) % p = headerSize % p := by
  obtain ⟨t, rfl⟩ := hb
  rw [Nat.mul_add_mod]

theorem maxlloc_ret_cases (p : Nat) (h : Heap) (mres : Option Nat) (s : Nat) :
    (maxlloc p h mres s).ret = none ∨
    ∃ b, mres = some b ∧ (maxlloc p h mres s).ret = some (b + headerSize) := by
  by_cases hs : s = 0
  · subst hs
    rw [maxlloc_zero_eq]
    exact Or.inl rfl
  · cases mres with
    | none =>
        rw [maxlloc_fail_eq p h s hs]
        exact Or.inl rfl
    | some b =>
        rw [maxlloc_some_eq p h b s hs]
        exact Or.inr ⟨b, rfl, rfl⟩

theorem calloc_ret_cases (p : Nat) (h : Heap) (mres : Option Nat)
    (count size : Nat) :
    (calloc p h mres count size).ret = none ∨
    ∃ b, mres = some b ∧ (calloc p h mres count size).ret = some (b + headerSize) := by
  unfold calloc
  dsimp only
  rcases maxlloc_ret_cases p h mres (count * size % W) with hr | ⟨b, hb, hr⟩
  · rw [hr]
    exact Or.inl rfl
  · rw [hr]
    dsimp only
    cases hh : (maxlloc p h mres (count * size % W)).heap (b + headerSize - headerSize) with
    | none => exact Or.inr ⟨b, hb, rfl⟩
    | some blk => exact Or.inr ⟨b, hb, rfl⟩

theorem realloc_ret_cases (p : Nat) (h : Heap) (mres ptr : Option Nat) (s : Nat) :
    (realloc p h mres ptr s).ret = none ∨
    (∃ q0, ptr = some q0 ∧ (realloc p h mres ptr s).ret = some q0) ∨
    (∃ b, mres = some b ∧ (realloc p h mres ptr s).ret = some (b + headerSize)) := by
  by_cases hs : s = 0
  · subst hs
    rw [realloc_zero_eq]
    exact Or.inl rfl
  · cases ptr with
    | none =>
        rw [realloc_null_eq p h mres s hs]
        rcases maxlloc_ret_cases p h mres s with hr | ⟨b, hb, hr⟩
        · exact Or.inl hr
        · exact Or.inr (Or.inr ⟨b, hb, hr⟩)
    | some q0 =>
        cases hold : h (q0 - headerSize) with
        | none =>
            rw [realloc_dangling_eq p h mres q0 s hs hold]
            exact Or.inl rfl
        | some old =>
            by_cases hfit : roundUp p s ≤ old.blockSize
            · rw [realloc_fit_eq p h mres q0 s old hs hold hfit]
              exact Or.inr (Or.inl ⟨q0, rfl, rfl⟩)
            · cases mres with
              | none =>
                  rw [realloc_grow_fail_eq p h q0 s old hs hold hfit]
                  exact Or.inl rfl
              | some nb =>
                  refine Or.inr (Or.inr ⟨nb, rfl, ?_⟩)
                  unfold realloc
                  rw [if_neg hs]
                  dsimp only
                  rw [hold]
                  dsimp only
                  rw [if_neg hfit]

/-- C10: every non-null pointer handed out is the page-aligned base of its
mapping plus `headerSize`: `maxlloc` and `calloc` return `base + headerSize`
for the granted base, and — provided the OS hands out page-aligned bases and
the incoming pointer already has the allocator's alignment — every pointer
`realloc` returns satisfies `q % p = headerSize % p`, the fixed alignment all
allocator results share. -/
theorem c10_payload_pointer_alignment (p : Nat) (h : Heap)
    (s count esize base : Nat) (mres ptr : Option Nat)
    (hal : p ∣ base)
    (halm : ∀ b, mres = some b → p ∣ b)
    (halp : ∀ q0, ptr = some q0 → q0 % p = headerSize % p) :
    (∀ q, (maxlloc p h (some base) s).ret = some q →
      q = base + headerSize ∧ q % p = headerSize % p) ∧
    (∀ q, (calloc p h (some base) count esize).ret = some q →
      q = base + headerSize ∧ q % p = headerSize % p) ∧
    (∀ q, (realloc p h mres ptr s).ret = some q → q % p = headerSize % p) := by
  refine ⟨?_, ?_, ?_⟩
  · intro q hq
    rcases maxlloc_ret_cases p h (some base) s with hr | ⟨b, hb, hr⟩
    · rw [hr] at hq
      exact Option.noConfusion hq
    · injection hb with hb'
      subst hb'
      rw [hr] at hq
      injection hq with hq'
      subst hq'
      exact ⟨rfl, add_header_mod p base hal⟩
  · intro q hq
    rcases calloc_ret_cases p h (some base) count esize with hr | ⟨b, hb, hr⟩
    · rw [hr] at hq
      exact Option.noConfusion hq
    · injection hb with hb'
      subst hb'
      rw [hr] at hq
      injection hq with hq'
      subst hq'
      exact ⟨rfl, add_header_mod p base hal⟩
  · intro q hq
    rcases realloc_ret_cases p h mres ptr s with hr | ⟨q0, hq0, hr⟩ | ⟨b, hb, hr⟩
    · rw [hr] at hq
      exact Option.noConfusion hq
    · rw [hr] at hq
      injection hq with hq'
      subst hq'
      exact halp q0 hq0
    · rw [hr] at hq
      injection hq with hq'
      subst hq'
      exact add_header_mod p b (halm b hb)

/-- C10 witness: `maxlloc` at granted base 0 and a growing `realloc` of the
sample block moved to the page-aligned base 262144. -/
theorem c10_payload_pointer_alignment_witness :
    (4096 ∣ (0 : Nat)) ∧
    (0 + headerSize = 0 + headerSize ∧ (0 + headerSize) % 4096 = headerSize % 4096) ∧
    (262144 + headerSize) % 4096 = headerSize % 4096 :=
  ⟨by decide,
    (c10_payload_pointer_alignment 4096 Heap.empty 5 10 4 0 (some 262144) (some 8)
      (by decide)
      (fun b hb => by injection hb with h2; subst h2; decide)
      (fun q0 hq0 => by injection hq0 with h2; subst h2; decide)).1
      (0 + headerSize) (by decide),
    (c10_payload_pointer_alignment 4096 sampleHeap 5000 10 4 0 (some 262144) (some 8)
      (by decide)
      (fun b hb => by injection hb with h2; subst h2; decide)
      (fun q0 hq0 => by injection hq0 with h2; subst h2; decide)).2.2
      (262144 + headerSize) (by decide)⟩

end Maxlloc
